import Mathlib

/-!
Shallow embedding of `src/crlf.c` (libgit2 CRLF filter, storage direction).

Buffers (`git_buf`) are modelled as `List Nat` of byte values; `git_buf` keeps
its contents NUL-terminated, so reading `ptr[j]` at `j = size` yields the byte
`0`, which `byteAt` models by defaulting out-of-range reads to `0`.
-/

namespace Crlf

/-- Byte value of a carriage return. -/
def CR : Nat := 13

/-- Byte value of a line feed. -/
def LF : Nat := 10

/-- Read byte `i` of buffer `s`; out-of-range reads give the NUL terminator
byte `0` maintained by `git_buf`. -/
def byteAt (s : List Nat) (i : Nat) : Nat := (s[i]?).getD 0

/-- The resolved line-ending action (`git_crlf_t` of `include/git2`). -/
inductive git_crlf_t
  | GIT_CRLF_GUESS
  | GIT_CRLF_BINARY
  | GIT_CRLF_TEXT
  | GIT_CRLF_INPUT
  | GIT_CRLF_CRLF
  | GIT_CRLF_AUTO
deriving DecidableEq, Repr

/-- The resolved eol preference (`git_eol_t` of `include/git2`). -/
inductive git_eol_t
  | GIT_EOL_UNSET
  | GIT_EOL_LF
  | GIT_EOL_CRLF
deriving DecidableEq, Repr

/-- A raw attribute value as returned by the attribute lookup: the sentinel
pointers `git_attr__true` / `git_attr__false`, `NULL` (unset), or a string. -/
inductive attr_value
  | attr_true
  | attr_false
  | attr_unset
  | attr_string (s : String)
deriving DecidableEq, Repr

/-- `struct crlf_attrs` (src/crlf.c lines 16-19). -/
structure crlf_attrs where
  crlf_action : git_crlf_t
  eol : git_eol_t
deriving DecidableEq, Repr

open git_crlf_t git_eol_t attr_value

/-- `check_crlf` (src/crlf.c lines 26-44): interpret a `text`/`crlf`
attribute value as an action. -/
def check_crlf (value : attr_value) : git_crlf_t :=
  match value with
  | attr_true => GIT_CRLF_TEXT
  | attr_false => GIT_CRLF_BINARY
  | attr_unset => GIT_CRLF_GUESS
  | attr_string s =>
      if s = "input" then GIT_CRLF_INPUT
      else if s = "auto" then GIT_CRLF_AUTO
      else GIT_CRLF_GUESS

/-- `check_eol` (src/crlf.c lines 46-58): interpret an `eol` attribute value.
The sentinel true/false pointers point at internal marker strings, so the
`strcmp` against "lf"/"crlf" fails on them and they map to `GIT_EOL_UNSET`. -/
def check_eol (value : attr_value) : git_eol_t :=
  match value with
  | attr_unset => GIT_EOL_UNSET
  | attr_string s =>
      if s = "lf" then GIT_EOL_LF
      else if s = "crlf" then GIT_EOL_CRLF
      else GIT_EOL_UNSET
  | attr_true => GIT_EOL_UNSET
  | attr_false => GIT_EOL_UNSET

/-- `crlf_input_action` (src/crlf.c lines 60-72). -/
def crlf_input_action (ca : crlf_attrs) : git_crlf_t :=
  if ca.crlf_action = GIT_CRLF_BINARY then GIT_CRLF_BINARY
  else if ca.eol = GIT_EOL_LF then GIT_CRLF_INPUT
  else if ca.eol = GIT_EOL_CRLF then GIT_CRLF_CRLF
  else ca.crlf_action

/-- Outcome of the external `git_attr_get_many` call (the attribute store is
an external collaborator): `GIT_ENOTFOUND`, `GIT_SUCCESS` with the three
requested values `crlf`, `eol`, `text` (in the order of `attr_names`), or
some other error code. -/
inductive attr_lookup_result
  | enotfound
  | success (crlf eol text : attr_value)
  | failure (code : Int)
deriving DecidableEq, Repr

/-- `crlf_load_attributes` (src/crlf.c lines 74-103), as a function of the
outcome of the `git_attr_get_many` lookup it performs. -/
def crlf_load_attributes : attr_lookup_result → Except Int crlf_attrs
  | attr_lookup_result.enotfound =>
      Except.ok { crlf_action := GIT_CRLF_GUESS, eol := GIT_EOL_UNSET }
  | attr_lookup_result.success c e t =>
      Except.ok
        { crlf_action :=
            if check_crlf t = GIT_CRLF_GUESS then check_crlf c else check_crlf t,
          eol := check_eol e }
  | attr_lookup_result.failure code => Except.error code

/-- The initial fast scan of `drop_crlf` (src/crlf.c lines 112-113) and the
inner scan of its main loop (lines 130-131): advance `i` while `i < psize`
and `source->ptr[i] != CR`, returning the final value of `i`. -/
def scanCR (s : List Nat) (psize i : Nat) : Nat :=
  if h : i < psize ∧ byteAt s i ≠ CR then scanCR s psize (i + 1) else i
termination_by psize - i
decreasing_by omega

theorem scanCR_ge (s : List Nat) (psize i : Nat) : i ≤ scanCR s psize i := by
  induction i using scanCR.induct s psize with
  | case1 i h ih => rw [scanCR, dif_pos h]; omega
  | case2 i h => rw [scanCR, dif_neg h]

/-- The chunk `source->ptr[org .. i)` copied by `git_buf_put` at
src/crlf.c line 134. -/
def chunk (s : List Nat) (org i : Nat) : List Nat := (s.drop org).take (i - org)

/-- The main scan loop of `drop_crlf` (src/crlf.c lines 127-148), carrying
the destination buffer: at each iteration copy the run of non-CR bytes, then
keep the CR only when the next byte (which is the NUL terminator when the
inner scan stopped at `psize`) is not LF, and resume after it. -/
def mainLoop (s : List Nat) (psize i : Nat) (dest : List Nat) : List Nat :=
  if h : i < psize then
    mainLoop s psize (scanCR s psize i + 1)
      ((if i < scanCR s psize i then dest ++ chunk s i (scanCR s psize i) else dest) ++
        (if byteAt s (scanCR s psize i + 1) ≠ LF then [CR] else []))
  else dest
termination_by psize - i
decreasing_by
  have := scanCR_ge s psize i
  omega

/-- `drop_crlf` (src/crlf.c lines 105-153): `none` models the `-1`
"skip this filter" return, `some dest` models the `0` return with the bytes
written into `dest`. -/
def drop_crlf (source : List Nat) : Option (List Nat) :=
  if scanCR source (source.length - 1) 0 = source.length - 1 then
    none
  else
    some (mainLoop source (source.length - 1)
            (scanCR source (source.length - 1) 0) [] ++
          [byteAt source (source.length - 1)])

/-- Modelled from the spec: the text-statistics collaborator
(`git_text_stats` filled by `git_text_gather_stats`, neither of which is in
src/) is a black box reporting counts of CR, LF and CRLF occurrences plus a
binary-ness verdict over a buffer; only the fields the decision procedure
reads are modelled, and a gathered stats value is passed to the transformer
as an input. -/
structure git_text_stats where
  cr : Nat
  lf : Nat
  crlf : Nat
  is_binary : Bool
deriving DecidableEq, Repr

/-- Modelled from the spec: `git_text_is_binary` (not in src/) is the
collaborator's binary-vs-text verdict over the gathered statistics. -/
def git_text_is_binary (stats : git_text_stats) : Bool := stats.is_binary

/-- Result of a filter `apply` callback: `applied dest` models returning `0`
with the produced destination buffer, `declined` models returning `-1`,
which tells the filter chain to skip this filter. -/
inductive FilterResult
  | applied (dest : List Nat)
  | declined
deriving DecidableEq, Repr

/-- Lift the result of `drop_crlf` to a filter outcome (the `return
drop_crlf(dest, source)` at src/crlf.c line 204). -/
def toFilterResult : Option (List Nat) → FilterResult
  | some dest => FilterResult.applied dest
  | none => FilterResult.declined

/-- The heuristic gate of `crlf_apply_to_odb` (src/crlf.c lines 165-201):
`true` exactly when control falls through to `drop_crlf`. For
`GIT_CRLF_AUTO` and `GIT_CRLF_GUESS` the gathered statistics are consulted
(decline on bare CRs, on a binary verdict, and on no CRs at all); every
other action falls through unconditionally. -/
def crlf_heuristics_pass (crlf_action : git_crlf_t) (stats : git_text_stats) : Bool :=
  if crlf_action = GIT_CRLF_AUTO ∨ crlf_action = GIT_CRLF_GUESS then
    if stats.cr ≠ stats.crlf then false
    else if git_text_is_binary stats then false
    else if stats.cr = 0 then false
    else true
  else true

/-- `crlf_apply_to_odb` (src/crlf.c lines 155-205), as a function of the
filter's resolved action, the statistics the collaborator would gather over
`source`, and the source buffer. The destination buffer starts out empty
(the filter chain clears it before each apply); an empty source returns `0`
with the destination untouched (lines 161-163). -/
def crlf_apply_to_odb (crlf_action : git_crlf_t) (stats : git_text_stats)
    (source : List Nat) : FilterResult :=
  if source.length = 0 then FilterResult.applied []
  else if crlf_heuristics_pass crlf_action stats then
    toFilterResult (drop_crlf source)
  else FilterResult.declined

/-! Helper lemmas about `scanCR`: it never moves backwards, never passes
`psize`, stops on a carriage return when it stops early, and runs to `psize`
exactly when the scanned range holds no carriage return. -/

theorem scanCR_le (s : List Nat) (psize i : Nat) :
    i ≤ psize → scanCR s psize i ≤ psize := by
  induction i using scanCR.induct s psize with
  | case1 i h ih => rw [scanCR, dif_pos h]; exact fun _ => ih (by omega)
  | case2 i h => rw [scanCR, dif_neg h]; exact fun hi => hi

theorem scanCR_stop (s : List Nat) (psize i : Nat) :
    scanCR s psize i < psize → byteAt s (scanCR s psize i) = CR := by
  induction i using scanCR.induct s psize with
  | case1 i h ih => rw [scanCR, dif_pos h]; exact ih
  | case2 i h =>
      rw [scanCR, dif_neg h]
      intro hi
      by_contra hne
      exact h ⟨hi, hne⟩

theorem scanCR_no_cr (s : List Nat) (psize i : Nat) :
    ∀ m, i ≤ m → m < scanCR s psize i → byteAt s m ≠ CR := by
  induction i using scanCR.induct s psize with
  | case1 i h ih =>
      rw [scanCR, dif_pos h]
      intro m him hm
      rcases Nat.eq_or_lt_of_le him with heq | hlt
      · subst heq; exact h.2
      · exact ih m hlt hm
  | case2 i h =>
      rw [scanCR, dif_neg h]
      intro m him hm
      omega

theorem scanCR_of_no_cr (s : List Nat) (psize i : Nat) :
    i ≤ psize → (∀ m, i ≤ m → m < psize → byteAt s m ≠ CR) →
    scanCR s psize i = psize := by
  induction i using scanCR.induct s psize with
  | case1 i h ih =>
      rw [scanCR, dif_pos h]
      intro _ hno
      exact ih (by omega) (fun m h1 h2 => hno m (by omega) h2)
  | case2 i h =>
      rw [scanCR, dif_neg h]
      intro hle hno
      push_neg at h
      rcases Nat.eq_or_lt_of_le hle with heq | hlt
      · exact heq
      · exact absurd (h hlt) (hno i (Nat.le_refl i) hlt)

theorem scanCR_first (s : List Nat) (psize k : Nat)
    (hk : k < psize) (hcr : byteAt s k = CR) :
    ∀ i, i ≤ k → (∀ m, i ≤ m → m < k → byteAt s m ≠ CR) →
    scanCR s psize i = k := by
  intro i
  induction i using scanCR.induct s psize with
  | case1 i h ih =>
      rw [scanCR, dif_pos h]
      intro hik hno
      have hik' : i ≠ k := fun e => h.2 (e ▸ hcr)
      exact ih (by omega) (fun m h1 h2 => hno m (by omega) h2)
  | case2 i h =>
      rw [scanCR, dif_neg h]
      intro hik hno
      push_neg at h
      rcases Nat.eq_or_lt_of_le hik with heq | hlt
      · exact heq
      · exact absurd (h (by omega)) (hno i (Nat.le_refl i) hlt)

/-! Shift lemmas: every step of `drop_crlf` that runs at an index at or past
a prefix of length `x.length` computes the same result on the suffix alone.
They back the analysis of the main loop, which starts at the index where the
initial fast scan stopped. -/

theorem byteAt_append_right (x t : List Nat) (j : Nat) :
    byteAt (x ++ t) (x.length + j) = byteAt t j := by
  unfold byteAt
  rw [List.getElem?_append_right (by omega), Nat.add_sub_cancel_left]

theorem byteAt_append_left (x t : List Nat) (m : Nat) (hm : m < x.length) :
    byteAt (x ++ t) m = byteAt x m := by
  unfold byteAt
  rw [List.getElem?_append_left hm]

theorem byteAt_take (s : List Nat) (k m : Nat) (hm : m < k) :
    byteAt (s.take k) m = byteAt s m := by
  unfold byteAt
  rw [List.getElem?_take, if_pos hm]

theorem chunk_shift (x t : List Nat) (j j' : Nat) :
    chunk (x ++ t) (x.length + j) (x.length + j') = chunk t j j' := by
  unfold chunk
  rw [List.drop_append]
  congr 1
  omega

theorem scanCR_shift (x t : List Nat) (pt j : Nat) :
    scanCR (x ++ t) (x.length + pt) (x.length + j) = x.length + scanCR t pt j := by
  induction j using scanCR.induct t pt with
  | case1 j h ih =>
      have hb : byteAt (x ++ t) (x.length + j) = byteAt t j := byteAt_append_right x t j
      conv_rhs => rw [scanCR, dif_pos h]
      conv_lhs => rw [scanCR]
      rw [dif_pos ⟨by omega, by rw [hb]; exact h.2⟩]
      exact ih
  | case2 j h =>
      have hb : byteAt (x ++ t) (x.length + j) = byteAt t j := byteAt_append_right x t j
      conv_rhs => rw [scanCR, dif_neg h]
      conv_lhs => rw [scanCR]
      rw [dif_neg]
      intro hc
      exact h ⟨by omega, by rw [← hb]; exact hc.2⟩

theorem mainLoop_shift (x t : List Nat) (pt j : Nat) (dest : List Nat) :
    mainLoop (x ++ t) (x.length + pt) (x.length + j) dest = mainLoop t pt j dest := by
  induction j, dest using mainLoop.induct t pt with
  | case1 j dest h ih =>
      conv_rhs => rw [mainLoop, dif_pos h]
      conv_lhs => rw [mainLoop]
      rw [dif_pos (show x.length + j < x.length + pt by omega)]
      rw [scanCR_shift x t pt j]
      rw [chunk_shift x t j (scanCR t pt j)]
      rw [Nat.add_assoc]
      rw [byteAt_append_right x t (scanCR t pt j + 1)]
      simp only [Nat.add_lt_add_iff_left]
      exact ih
  | case2 j dest h =>
      conv_rhs => rw [mainLoop, dif_neg h]
      conv_lhs => rw [mainLoop]
      rw [dif_neg (show ¬x.length + j < x.length + pt by omega)]

/-- Core of C6: when no byte of `s` strictly before the last index is a
carriage return, the initial fast scan reaches `psize` and `drop_crlf`
returns `-1`. -/
theorem drop_crlf_none_of_no_cr (s : List Nat) (hlen : 1 ≤ s.length)
    (hno : ∀ i, i + 1 < s.length → byteAt s i ≠ CR) : drop_crlf s = none := by
  unfold drop_crlf
  rw [scanCR_of_no_cr s (s.length - 1) 0 (by omega)
    (fun m _ hm => hno m (by omega))]
  simp

/-- Core of C7: a transformed buffer is the main-loop output followed by the
verbatim copy of the final source byte, and the source was not empty. -/
theorem drop_crlf_some_shape (s : List Nat) (out : List Nat)
    (h : drop_crlf s = some out) :
    s ≠ [] ∧ ∃ d, out = d ++ [byteAt s (s.length - 1)] := by
  unfold drop_crlf at h
  by_cases hc : scanCR s (s.length - 1) 0 = s.length - 1
  · rw [if_pos hc] at h
    exact absurd h (by simp)
  · rw [if_neg hc] at h
    constructor
    · intro hnil
      apply hc
      subst hnil
      rw [scanCR]
      simp
    · exact ⟨mainLoop s (s.length - 1) (scanCR s (s.length - 1) 0) [],
        (Option.some_inj.mp h).symm⟩

/-- Core of C10: when every byte of the prefix `x` avoids CR, the head of
`t` is a CR, and `t` has at least two bytes, `drop_crlf` on `x ++ t`
coincides with `drop_crlf` on `t` alone: the initial fast scan stops at
`x.length` and the main copy loop starts there, never copying `x`. -/
theorem drop_crlf_append (x t : List Nat)
    (hxno : ∀ m, m < x.length → byteAt x m ≠ CR)
    (hcr0 : byteAt t 0 = CR) (hlen2 : 2 ≤ t.length) :
    drop_crlf (x ++ t) = drop_crlf t := by
  have hpsize : (x ++ t).length - 1 = x.length + (t.length - 1) := by
    rw [List.length_append]; omega
  have hscan : scanCR (x ++ t) (x.length + (t.length - 1)) 0 = x.length := by
    apply scanCR_first
    · omega
    · have hb := byteAt_append_right x t 0
      rw [Nat.add_zero] at hb
      rw [hb]; exact hcr0
    · exact Nat.zero_le _
    · intro m _ hm
      rw [byteAt_append_left x t m hm]
      exact hxno m hm
  have hscan0 : scanCR t (t.length - 1) 0 = 0 := by
    rw [scanCR, dif_neg]
    intro hc
    exact hc.2 hcr0
  have hm0 : mainLoop (x ++ t) (x.length + (t.length - 1)) x.length [] =
      mainLoop t (t.length - 1) 0 [] := by
    have hml := mainLoop_shift x t (t.length - 1) 0 []
    rw [Nat.add_zero] at hml
    exact hml
  unfold drop_crlf
  rw [hpsize, hscan, hscan0]
  rw [if_neg (show ¬x.length = x.length + (t.length - 1) by omega)]
  rw [if_neg (show ¬(0 : Nat) = t.length - 1 by omega)]
  rw [hm0, byteAt_append_right x t (t.length - 1)]

/-! Claim theorems. -/

/-- Claim C1 (evidence of a code bug): on the buffer "A\r\nB" the transform
returns "\n\rB": the byte A preceding the first carriage return is lost, and
a carriage return that belongs to no CRLF pair of the input is inserted (the
lookahead at the end of the inner scan reads the NUL terminator), so bytes
are not preserved as the claim states. -/
theorem drop_crlf_corrupts_bytes_before_first_cr :
    drop_crlf [65, 13, 10, 66] = some [10, 13, 66] := by
  simp [drop_crlf, scanCR, mainLoop, byteAt, chunk, CR, LF]

/-- Claim C2 (evidence of a code bug): on the three-byte buffer "A\r\n" the
transform does not decline, but it produces "\n", not the claimed "A\n": the
initial fast scan stops at the CR and the copy loop starts there, so the
byte A at index 0 is never copied. -/
theorem drop_crlf_eval_a_cr_lf : drop_crlf [65, 13, 10] = some [10] := by
  simp [drop_crlf, scanCR, mainLoop, byteAt, chunk, CR, LF]

/-- Claim C3 (counterexample): strip_crlf is not idempotent. On the buffer
CR CR LF X the first application yields CR LF CR X (which still contains a
CRLF pair before its last byte), and the second application yields LF CR X,
which neither declines nor equals the first output. -/
theorem drop_crlf_not_idempotent :
    drop_crlf [13, 13, 10, 88] = some [13, 10, 13, 88] ∧
    drop_crlf [13, 10, 13, 88] = some [10, 13, 88] ∧
    ¬(drop_crlf [13, 10, 13, 88] = none ∨
      drop_crlf [13, 10, 13, 88] = some [13, 10, 13, 88]) := by
  have h1 : drop_crlf [13, 13, 10, 88] = some [13, 10, 13, 88] := by
    simp [drop_crlf, scanCR, mainLoop, byteAt, chunk, CR, LF]
  have h2 : drop_crlf [13, 10, 13, 88] = some [10, 13, 88] := by
    simp [drop_crlf, scanCR, mainLoop, byteAt, chunk, CR, LF]
  refine ⟨h1, h2, ?_⟩
  rw [h2]
  simp

/-- Claim C3 (amended): a second application of strip_crlf leaves a
transformed output unchanged only in restricted cases; in particular, when
the output contains no carriage return before its last byte, the second
application declines, which passes the buffer through unchanged. -/
theorem drop_crlf_idempotent_on_cr_free_output :
    ∀ s out, drop_crlf s = some out →
      (∀ i, i + 1 < out.length → byteAt out i ≠ CR) →
      drop_crlf out = none := by
  intro s out h hno
  obtain ⟨-, d, hd⟩ := drop_crlf_some_shape s out h
  have hlen : 1 ≤ out.length := by rw [hd]; simp
  exact drop_crlf_none_of_no_cr out hlen hno

/-- Witness for the amended C3 at the concrete input CR LF. -/
theorem drop_crlf_idempotent_on_cr_free_output_witness :
    drop_crlf [13, 10] = some [10] ∧ drop_crlf [10] = none := by
  have h1 : drop_crlf [13, 10] = some [10] := by
    simp [drop_crlf, scanCR, mainLoop, byteAt, chunk, CR, LF]
  refine ⟨h1, drop_crlf_idempotent_on_cr_free_output [13, 10] [10] h1 ?_⟩
  intro i hi
  simp at hi

/-- Claim C4 (counterexample): with the action `GIT_CRLF_BINARY` and a
statistics record reporting a bare CR and a binary verdict, the apply
callback still performs the transform (the heuristics gate only fires for
`GIT_CRLF_AUTO` and `GIT_CRLF_GUESS`), although the claimed condition — the
action being Text, Input, or Crlf, or Auto/Guess with clean statistics — is
false. -/
theorem crlf_apply_binary_action_transforms :
    crlf_apply_to_odb GIT_CRLF_BINARY ⟨1, 0, 0, true⟩ [13, 10] =
      FilterResult.applied [10] ∧
    crlf_heuristics_pass GIT_CRLF_BINARY ⟨1, 0, 0, true⟩ = true ∧
    ¬((GIT_CRLF_BINARY = GIT_CRLF_TEXT ∨ GIT_CRLF_BINARY = GIT_CRLF_INPUT ∨
        GIT_CRLF_BINARY = GIT_CRLF_CRLF) ∨
      ((GIT_CRLF_BINARY = GIT_CRLF_AUTO ∨ GIT_CRLF_BINARY = GIT_CRLF_GUESS) ∧
        (⟨1, 0, 0, true⟩ : git_text_stats).cr = (⟨1, 0, 0, true⟩ : git_text_stats).crlf ∧
        git_text_is_binary ⟨1, 0, 0, true⟩ = false ∧
        0 < (⟨1, 0, 0, true⟩ : git_text_stats).cr)) := by
  refine ⟨?_, by decide, by decide⟩
  simp [crlf_apply_to_odb, crlf_heuristics_pass, toFilterResult, git_text_is_binary,
    drop_crlf, scanCR, mainLoop, byteAt, chunk, CR, LF]

/-- Claim C4 (amended): for a non-empty source, the apply callback reaches
the transform exactly when the action is not Auto and not Guess (Text,
Input, Crlf — and the unreachable-in-practice Binary), or the action is
Auto or Guess and the gathered statistics report `cr = crlf`, a non-binary
verdict, and at least one CR; whenever the Auto/Guess statistics gate
fails, the callback declines. -/
theorem crlf_apply_transform_condition :
    ∀ (a : git_crlf_t) (st : git_text_stats) (src : List Nat), src ≠ [] →
      ((crlf_heuristics_pass a st = true ↔
          (¬(a = GIT_CRLF_AUTO ∨ a = GIT_CRLF_GUESS)) ∨
            (st.cr = st.crlf ∧ git_text_is_binary st = false ∧ 0 < st.cr))
        ∧ (crlf_heuristics_pass a st = true →
            crlf_apply_to_odb a st src = toFilterResult (drop_crlf src))
        ∧ (crlf_heuristics_pass a st = false →
            crlf_apply_to_odb a st src = FilterResult.declined)) := by
  intro a st src hsrc
  have hlen : ¬src.length = 0 := by
    simpa [List.length_eq_zero] using hsrc
  refine ⟨?_, ?_, ?_⟩
  · by_cases hag : a = GIT_CRLF_AUTO ∨ a = GIT_CRLF_GUESS
    · simp only [crlf_heuristics_pass, if_pos hag, git_text_is_binary, hag]
      split_ifs with h1 h2 h3 <;> simp_all <;> omega
    · simp only [crlf_heuristics_pass, if_neg hag, git_text_is_binary]
      simp [hag]
  · intro hp
    simp [crlf_apply_to_odb, hlen, hp]
  · intro hp
    simp [crlf_apply_to_odb, hlen, hp]

/-- Witness for the amended C4 at the concrete action `GIT_CRLF_AUTO`,
statistics reporting one CRLF, and the source CR LF. -/
theorem crlf_apply_transform_condition_witness :
    crlf_apply_to_odb GIT_CRLF_AUTO ⟨1, 1, 1, false⟩ [13, 10] =
      FilterResult.applied [10] := by
  have h := (crlf_apply_transform_condition GIT_CRLF_AUTO ⟨1, 1, 1, false⟩
    [13, 10] (by simp)).2.1 (by decide)
  rw [h]
  simp [toFilterResult, drop_crlf, scanCR, mainLoop, byteAt, chunk, CR, LF]

/-- Claim C5 (counterexample): on an empty source the apply callback does
not return the decline outcome (`-1`); it returns `0` — the same outcome
representation as success-with-transform — with the destination left
untouched. -/
theorem crlf_apply_empty_not_declined :
    crlf_apply_to_odb GIT_CRLF_TEXT ⟨0, 0, 0, false⟩ [] = FilterResult.applied [] ∧
    crlf_apply_to_odb GIT_CRLF_TEXT ⟨0, 0, 0, false⟩ [] ≠ FilterResult.declined := by
  exact ⟨rfl, by decide⟩

/-- Claim C5 (amended): for every action and statistics value, the apply
callback on an empty source returns the success outcome `0` with the
destination buffer left empty — a harmless no-op, but represented exactly
like success-with-transform rather than as a distinguished outcome. -/
theorem crlf_apply_empty_is_applied_nil :
    ∀ (a : git_crlf_t) (st : git_text_stats),
      crlf_apply_to_odb a st [] = FilterResult.applied [] := by
  intro a st
  rfl

/-- Claim C6: a buffer of length at least one with no carriage return
strictly before its last byte makes the initial fast scan reach `psize`, so
`drop_crlf` declines (in particular every buffer of length exactly one). -/
theorem drop_crlf_declines_without_cr :
    ∀ s : List Nat, 1 ≤ s.length →
      (∀ i, i + 1 < s.length → byteAt s i ≠ CR) → drop_crlf s = none := by
  intro s h1 h2
  exact drop_crlf_none_of_no_cr s h1 h2

/-- Witness for C6 at the length-one buffer holding a single CR: the scan
range is empty, so even a CR first byte declines. -/
theorem drop_crlf_declines_without_cr_witness : drop_crlf [13] = none := by
  apply drop_crlf_declines_without_cr [13] (by simp)
  intro i hi
  simp at hi

/-- Claim C7: whenever `drop_crlf` returns a transformed buffer, the source
was non-empty and the output consists of the main-loop output followed by
the final source byte copied verbatim — so the last byte of the output is
the last byte of the input, whatever its value. -/
theorem drop_crlf_last_byte_verbatim :
    ∀ s out, drop_crlf s = some out →
      s ≠ [] ∧ ∃ d, out = d ++ [byteAt s (s.length - 1)] := by
  intro s out h
  exact drop_crlf_some_shape s out h

/-- Witness for C7 at the buffer "X\r\r": the trailing lone CR is the final
byte of both the input and the output. -/
theorem drop_crlf_last_byte_verbatim_witness :
    drop_crlf [88, 13, 13] = some [13, 13] ∧
    ([88, 13, 13] ≠ ([] : List Nat) ∧ ∃ d, [13, 13] = d ++ [byteAt [88, 13, 13] 2]) := by
  have h1 : drop_crlf [88, 13, 13] = some [13, 13] := by
    simp [drop_crlf, scanCR, mainLoop, byteAt, chunk, CR, LF]
  exact ⟨h1, drop_crlf_last_byte_verbatim [88, 13, 13] [13, 13] h1⟩

/-- Claim C8: the `text` attribute wins over the `crlf` attribute: the
action derived by `crlf_load_attributes` is `check_crlf` of the `text`
value, falling back to `check_crlf` of the `crlf` value only when the
former is Guess; in particular text=true with crlf="input" yields Text, and
text unset with crlf="input" yields Input. -/
theorem crlf_load_attributes_text_precedence :
    (∀ c e t : attr_value,
        crlf_load_attributes (attr_lookup_result.success c e t) =
          Except.ok
            ⟨if check_crlf t = GIT_CRLF_GUESS then check_crlf c else check_crlf t,
              check_eol e⟩)
    ∧ (∀ e : attr_value,
        crlf_load_attributes
            (attr_lookup_result.success (attr_string "input") e attr_true) =
          Except.ok ⟨GIT_CRLF_TEXT, check_eol e⟩)
    ∧ (∀ e : attr_value,
        crlf_load_attributes
            (attr_lookup_result.success (attr_string "input") e attr_unset) =
          Except.ok ⟨GIT_CRLF_INPUT, check_eol e⟩) :=
  ⟨fun _ _ _ => rfl, fun _ => rfl, fun _ => rfl⟩

/-- Claim C9: `crlf_input_action` returns Binary whenever the resolved
action is Binary regardless of the eol preference, otherwise Input when eol
is Lf, otherwise Crlf when eol is Crlf, and otherwise the resolved action
unchanged. -/
theorem crlf_input_action_cases :
    ∀ (a : git_crlf_t) (e : git_eol_t),
      crlf_input_action ⟨a, e⟩ =
        if a = GIT_CRLF_BINARY then GIT_CRLF_BINARY
        else if e = GIT_EOL_LF then GIT_CRLF_INPUT
        else if e = GIT_EOL_CRLF then GIT_CRLF_CRLF
        else a := by
  intro a e
  rfl

/-- Claim C10: when the first carriage return of the source sits at index
`k` with `0 < k < len - 1`, `drop_crlf` on the source coincides with
`drop_crlf` on the suffix starting at `k`: the main copy loop begins where
the initial fast scan stopped and the `k` bytes before the first CR are
never copied. -/
theorem drop_crlf_ignores_prefix_before_first_cr :
    ∀ (s : List Nat) (k : Nat), 0 < k → k + 1 < s.length → byteAt s k = CR →
      (∀ i, i < k → byteAt s i ≠ CR) → drop_crlf s = drop_crlf (s.drop k) := by
  intro s k hk0 hklt hcr hno
  have hx : (s.take k).length = k := by
    rw [List.length_take]
    omega
  have hsplit : s.take k ++ s.drop k = s := List.take_append_drop k s
  have hb0 : byteAt (s.drop k) 0 = CR := by
    unfold byteAt
    rw [List.getElem?_drop]
    rw [Nat.add_zero]
    exact hcr
  have hlen2 : 2 ≤ (s.drop k).length := by
    rw [List.length_drop]
    omega
  have hxno : ∀ m, m < (s.take k).length → byteAt (s.take k) m ≠ CR := by
    intro m hm
    rw [hx] at hm
    rw [byteAt_take s k m hm]
    exact hno m hm
  calc drop_crlf s = drop_crlf (s.take k ++ s.drop k) := by rw [hsplit]
    _ = drop_crlf (s.drop k) := drop_crlf_append (s.take k) (s.drop k) hxno hb0 hlen2

/-- Witness for C10 at the buffer "A\r\nB" with first CR at index 1: the
result equals the transform of the suffix "\r\nB" and evaluates to
"\n\rB". -/
theorem drop_crlf_ignores_prefix_before_first_cr_witness :
    drop_crlf [65, 13, 10, 66] = drop_crlf [13, 10, 66] ∧
    drop_crlf [13, 10, 66] = some [10, 13, 66] := by
  constructor
  · exact drop_crlf_ignores_prefix_before_first_cr [65, 13, 10, 66] 1
      (by decide) (by decide) (by decide)
      (by
        intro i hi
        have hi0 : i = 0 := by omega
        subst hi0
        decide)
  · simp [drop_crlf, scanCR, mainLoop, byteAt, chunk, CR, LF]

end Crlf
